import Mathlib

/-!
Shallow embedding of the ipcoal `Model` class (src/ipcoal/model.py):
the demographic-model compiler (`_get_new_demography`), the sample
configurator (`_set_samples`), the RNG lifecycle
(`_reset_random_generators`), the three simulation entry points
(`sim_trees`, `sim_loci`, `sim_snps`), missing-data masking
(`apply_missing_mask`) and the entry checks of gene-tree inference
(`infer_gene_trees`).

External collaborators (the msprime engine, toytree, numpy random
streams) are abstracted: an engine oracle maps the random seed drawn
for a call to that call's result, and a numpy generator is modelled by
its seed together with the number of draws it has consumed.  Python
exceptions become an `Except Err` result; each statement of the source
is translated in its original order.
-/

namespace Ipcoal

instance {ε α : Type} [DecidableEq ε] [DecidableEq α] :
    DecidableEq (Except ε α) := fun a b =>
  match a, b with
  | .ok x, .ok y =>
    if h : x = y then .isTrue (by rw [h]) else .isFalse (by simp [h])
  | .error x, .error y =>
    if h : x = y then .isTrue (by rw [h]) else .isFalse (by simp [h])
  | .ok _, .error _ => .isFalse (by simp)
  | .error _, .ok _ => .isFalse (by simp)

/-- Kinds of Python exceptions the embedded code paths can raise. -/
inductive Err where
  | ipcoal (msg : String)
  | typeError
  | assertionError (msg : String)
  | indexError
  | attrError
  | toytreeError
  | nonTermination
  deriving DecidableEq

/-- Truthiness of an optional integer in Python: `None` and `0` are falsy
(the source tests `not self._init_mseed`, `if max_mutations`, ...). -/
def pyFalsy : Option Nat → Bool
  | none => true
  | some 0 => true
  | some (Nat.succ _) => false

/-- A `np.random.default_rng` stream, abstracted to its seed and the
number of draws it has consumed; the k-th draw is represented by the
pair `(seed, k)`, which engine oracles consume in place of the actual
integer that `rng.integers(...)` would return. -/
structure Rng where
  seed : Option Nat
  count : Nat
  deriving DecidableEq

/-- One abstract draw from a numpy stream (`rng.integers(...)`,
`rng.choice(...)`): returns the draw token and the advanced stream. -/
def Rng.next (r : Rng) : (Option Nat × Nat) × Rng :=
  ((r.seed, r.count), ⟨r.seed, r.count + 1⟩)

/-- A toytree node as read by `_get_new_demography` and `_set_samples`:
its idx label, height, `Ne` attribute, children idx labels (empty for a
leaf) and tip name.  A tree is a list of such nodes in idx order, the
order in which `tree.idx_dict.items()` yields them. -/
structure TNode where
  idx : Nat
  height : ℚ
  ne : ℚ
  children : List Nat
  name : String
  deriving DecidableEq

/-- One entry of `Model.ms_admix`: `(src, dest, (t0, t1), rate)`, the
admixture interval already resolved to absolute generations. -/
structure AdmixEdge where
  src : Nat
  dest : Nat
  t0 : ℚ
  t1 : ℚ
  rate : ℚ
  deriving DecidableEq

/-- The event dicts built inside `_get_new_demography` before sorting.
Field order and contents follow the Python dict literals. -/
inductive Event where
  | split (time : ℚ) (derived : List Nat) (ancestral : Nat)
  | admixture (time : ℚ) (ancestral : List Nat) (derived : Nat)
      (proportions : List ℚ)
  | migration (time : ℚ) (source : Nat) (dest : Nat) (endFlag : Bool)
      (rate : ℚ)
  deriving DecidableEq

/-- The value of the dict key `x['time']`, the first sort key. -/
def Event.time : Event → ℚ
  | .split t _ _ => t
  | .admixture t _ _ _ => t
  | .migration t _ _ _ _ => t

/-- The value of the dict key `x['type']`, the second sort key: a plain
Python string, compared lexicographically by `events.sort`. -/
def Event.typeStr : Event → String
  | .split _ _ _ => "split"
  | .admixture _ _ _ _ => "admixture"
  | .migration _ _ _ _ _ => "migration"

/-- `events.sort(key=lambda x: (x['time'], x['type']))` orders events by
this relation: time first, then the type string.  Python compares
strings lexicographically by code point, which is the lexicographic
order on their character lists. -/
def eventLE (e f : Event) : Prop :=
  e.time < f.time ∨ (e.time = f.time ∧ e.typeStr.data ≤ f.typeStr.data)

instance : DecidableRel eventLE := fun e f =>
  inferInstanceAs (Decidable (e.time < f.time ∨
    (e.time = f.time ∧ e.typeStr.data ≤ f.typeStr.data)))

instance : IsTotal Event eventLE := ⟨by
  intro a b
  rcases lt_trichotomy a.time b.time with h | h | h
  · exact Or.inl (Or.inl h)
  · rcases le_total a.typeStr.data b.typeStr.data with hs | hs
    · exact Or.inl (Or.inr ⟨h, hs⟩)
    · exact Or.inr (Or.inr ⟨h.symm, hs⟩)
  · exact Or.inr (Or.inl h)⟩

instance : IsTrans Event eventLE := ⟨by
  intro a b c hab hbc
  rcases hab with h1 | ⟨h1, s1⟩ <;> rcases hbc with h2 | ⟨h2, s2⟩
  · exact Or.inl (h1.trans h2)
  · exact Or.inl (h2 ▸ h1)
  · exact Or.inl (h1 ▸ h2)
  · exact Or.inr ⟨h1.trans h2, s1.trans s2⟩⟩

/-- The first event-building loop of `_get_new_demography`: one split
event per internal node, in idx order. -/
def buildSplitEvents (nodes : List TNode) : List Event :=
  nodes.filterMap fun nd =>
    if nd.children = [] then none
    else some (.split nd.height nd.children nd.idx)

/-- The second event-building loop: per `ms_admix` entry, a point-time
admixture event when `time[0] == time[1]`, else a start/end pair of
migration-rate events.  The admixture dict stores this edge's own
proportions `[rate, 1 - rate]`. -/
def buildAdmixEvents (msAdmix : List AdmixEdge) : List Event :=
  msAdmix.flatMap fun e =>
    if e.t0 = e.t1 then
      [.admixture e.t0 [e.src, e.dest] e.dest [e.rate, 1 - e.rate]]
    else
      [.migration e.t0 e.src e.dest false e.rate,
       .migration e.t1 e.src e.dest true 0]

/-- The compiled, sorted event list of `_get_new_demography` (the state
of `events` after `events.sort(key=lambda x: (x['time'], x['type']))`;
Python list sort is a stable sort by the key, which insertion sort into
already-sorted later elements reproduces). -/
def compiledEvents (nodes : List TNode) (msAdmix : List AdmixEdge) :
    List Event :=
  List.insertionSort eventLE (buildSplitEvents nodes ++ buildAdmixEvents msAdmix)

/-- The `msprime.Demography` mutation calls issued while applying the
sorted events (and the initial tip-population loop).  Each constructor
mirrors one `demography.add_*` call with the keyword arguments the
source passes. -/
inductive DemCall where
  | addTipPopulation (name : String) (initialSize : ℚ)
      (description : String) (samplingTime : ℚ)
  | addSplitPopulation (name : String) (initialSize : ℚ)
  | addAdmixPopulation (name : String) (initialSize : ℚ)
  | addPopulationSplit (time : ℚ) (derived : List String) (ancestral : String)
  | addAdmixture (time : ℚ) (derived : String) (ancestral : List String)
      (proportions : List ℚ)
  | addMigrationRateChange (time : ℚ) (source : Nat) (dest : Nat) (rate : ℚ)
  deriving DecidableEq

/-- Python dict item assignment `d[k] = v`: replaces the value of an
existing key in place, appends a new key at the end (insertion order). -/
def dictSet {β : Type} (d : List (Nat × β)) (k : Nat) (v : β) :
    List (Nat × β) :=
  match d with
  | [] => [(k, v)]
  | (k0, v0) :: rest =>
    if k0 = k then (k, v) :: rest else (k0, v0) :: dictSet rest k v

/-- Python dict lookup `d[k]` (None when the key is absent). -/
def dictGet {β : Type} (d : List (Nat × β)) (k : Nat) : Option β :=
  (d.find? fun p => p.1 = k).map fun p => p.2

/-- Lookup of `dtree.idx_dict[i]`. -/
def findNode (nodes : List TNode) (i : Nat) : Option TNode :=
  nodes.find? fun nd => nd.idx = i

/-- State threaded through the event-application loop: the transient
`current` population tag of each tree node, and the demography calls
issued so far. -/
structure ApplySt where
  currents : List (Nat × String)
  calls : List DemCall
  deriving DecidableEq

/-- The leftover value of the Python variable `rate` when the
event-application loop runs: the last binding made by
`for event in self.ms_admix: src, dest, time, rate = event`.  The `0`
default is unreachable whenever an admixture event exists, since such
an event requires a nonempty `ms_admix`. -/
def leftoverRate (msAdmix : List AdmixEdge) : ℚ :=
  (msAdmix.getLast?).elim 0 (·.rate)

/-- `sorted(...)` on a list of Python strings (lexicographic by code
point, i.e. the lexicographic order on character lists). -/
def sortedStrings (l : List String) : List String :=
  List.insertionSort (fun a b : String => a.data ≤ b.data) l

/-- One iteration of the event-application loop of
`_get_new_demography`.  Split events name the new population by joining
the children's sorted `current` tags; admixture events create a node
named `current + "a"` — and read the stale Python variable `rate`
(`leftover`) instead of the event's own proportions; migration events
only add a rate change. -/
def applyEvent (nodes : List TNode) (leftover : ℚ) (st : ApplySt) :
    Event → Except Err ApplySt
  | .split _t _derived anc => do
    let node ← (findNode nodes anc).elim (.error .attrError) .ok
    let childCur ← node.children.mapM fun c =>
      (dictGet st.currents c).elim (Except.error Err.attrError) Except.ok
    let newname := String.intercalate "_" (sortedStrings childCur)
    .ok { currents := dictSet st.currents anc newname,
          calls := st.calls
            ++ [.addSplitPopulation newname node.ne,
                .addPopulationSplit node.height childCur newname] }
  | .admixture t ancPair _derived _props => do
    match ancPair with
    | [src, dest] => do
      let nodeSrc ← (findNode nodes src).elim (.error .attrError) .ok
      let curSrc ← (dictGet st.currents src).elim (Except.error Err.attrError)
        Except.ok
      let curDest ← (dictGet st.currents dest).elim (Except.error Err.attrError)
        Except.ok
      let newname := curSrc ++ "a"
      .ok { currents := dictSet st.currents src newname,
            calls := st.calls
              ++ [.addAdmixPopulation newname nodeSrc.ne,
                  .addAdmixture t curSrc [curDest, newname]
                    [leftover, 1 - leftover]] }
    | _ => .error .typeError
  | .migration t src dest _endFlag rate =>
    .ok { st with
          calls := st.calls ++ [.addMigrationRateChange t src dest rate] }

/-- `Model._get_new_demography`: initializes one tip population per
leaf (name `"n" + idx`, `current` tag set), compiles and sorts the
event list, then applies each event in order, returning the sequence
of `demography.add_*` calls.  The trailing
`self.ms_demography.sort_events()` happens inside msprime and is
outside the embedding. -/
def getNewDemography (nodes : List TNode) (msAdmix : List AdmixEdge) :
    Except Err (List DemCall) := do
  let leaves := nodes.filter fun nd => nd.children = []
  let init : ApplySt :=
    { currents := leaves.map fun nd => (nd.idx, "n" ++ toString nd.idx),
      calls := leaves.map fun nd =>
        .addTipPopulation ("n" ++ toString nd.idx) nd.ne nd.name nd.height }
  let fin ← (compiledEvents nodes msAdmix).foldlM
    (applyEvent nodes (leftoverRate msAdmix)) init
  .ok fin.calls

/-- Whether an event is a migration-rate change. -/
def Event.isMigration : Event → Bool
  | .migration _ _ _ _ _ => true
  | _ => false

/-- Whether an event is a split or admixture event. -/
def Event.isSplitOrAdmix : Event → Bool
  | .split _ _ _ => true
  | .admixture _ _ _ _ => true
  | _ => false

/-- Whether an event is an admixture event. -/
def Event.isAdmixture : Event → Bool
  | .admixture _ _ _ _ => true
  | _ => false

/-- Claim C3 as stated: the compiled list is ascending in time, and at
equal times no migration-rate event precedes a split or admixture
event. -/
@[reducible] def claimC3 (evs : List Event) : Prop :=
  evs.Sorted (fun a b => a.time ≤ b.time) ∧
  evs.Pairwise fun a b =>
    a.time = b.time → a.isMigration = true → b.isSplitOrAdmix = true → False

/-- The time and proportions of an `add_admixture` call. -/
def DemCall.admixProps : DemCall → Option (ℚ × List ℚ)
  | .addAdmixture t _ _ p => some (t, p)
  | _ => none

/-- Python dict item assignment for string keys (used by the
name-keyed branch of `_set_samples`). -/
def dictSetStr {β : Type} (d : List (String × β)) (k : String) (v : β) :
    List (String × β) :=
  match d with
  | [] => [(k, v)]
  | (k0, v0) :: rest =>
    if k0 = k then (k, v) :: rest else (k0, v0) :: dictSetStr rest k v

/-- The shapes the `nsamples` constructor argument can take: a plain
integer, a dict keyed by tip idx labels, a dict keyed by tip names, or
anything else (which `_set_samples` rejects with a `TypeError`). -/
inductive NSamples where
  | int (n : Nat)
  | dictInt (entries : List (Nat × Nat))
  | dictStr (entries : List (String × Nat))
  | otherType
  deriving DecidableEq

/-- One `ms.SampleSet(num_samples=..., population=..., ploidy=1)`. -/
structure SampleSet where
  numSamples : Nat
  population : String
  deriving DecidableEq

/-- `tree.get_mrca_idx_from_tip_labels(name)` for a single tip name:
the idx of the leaf with that name; toytree raises when no tip
matches. -/
def mrcaIdxFromTipLabel (nodes : List TNode) (name : String) :
    Except Err Nat :=
  match nodes.find? fun nd => nd.children = [] && nd.name = name with
  | some nd => .ok nd.idx
  | none => .error .toytreeError

/-- `Model._set_samples`: builds the `{population name: count}` dict in
each of the three accepted input shapes, then converts it to a list of
`ms.SampleSet`.  An integer is applied to every leaf; a dict is
traversed key by key — nothing checks that a dict covers every leaf. -/
def setSamples (nodes : List TNode) : NSamples → Except Err (List SampleSet)
  | .int n =>
    let samples := (nodes.filter fun nd => nd.children = []).map
      fun nd => ("n" ++ toString nd.idx, n)
    .ok (samples.map fun p => ⟨p.2, p.1⟩)
  | .dictInt entries =>
    let samples := entries.foldl
      (fun d p => dictSetStr d ("n" ++ toString p.1) p.2) []
    .ok (samples.map fun p => ⟨p.2, p.1⟩)
  | .dictStr entries => do
    let samples ← entries.foldlM
      (fun d p => do
        let nidx ← mrcaIdxFromTipLabel nodes p.1
        pure (dictSetStr d ("n" ++ toString nidx) p.2))
      ([] : List (String × Nat))
    .ok (samples.map fun p => ⟨p.2, p.1⟩)
  | .otherType => .error .typeError

/-- The pair of numpy generators owned by a model.  In the source
`self.rng_muts` may be the very same object as `self.rng_trees`
(`self.rng_muts = self.rng_trees if not self._init_mseed else ...`);
the embedding records that object identity in `aliased`, and
`drawM` dispatches on it so that a mutation draw advances the
genealogy stream exactly when the two names refer to one object. -/
structure RngPair where
  trees : Rng
  muts : Rng
  aliased : Bool
  deriving DecidableEq

/-- A draw from `self.rng_trees`. -/
def RngPair.drawT (p : RngPair) : (Option Nat × Nat) × RngPair :=
  let (v, r) := p.trees.next
  (v, { p with trees := r })

/-- A draw from `self.rng_muts`: the shared object when aliased. -/
def RngPair.drawM (p : RngPair) : (Option Nat × Nat) × RngPair :=
  if p.aliased then
    let (v, r) := p.trees.next
    (v, { p with trees := r })
  else
    let (v, r) := p.muts.next
    (v, { p with muts := r })

/-- `self.seqs` through its lifecycle: `None` at construction, the 1-D
empty array `np.array([])` set by `sim_trees`, a 2-D
`(nstips, nsnps)` SNP matrix set by `sim_snps`, or a 3-D
`(nloci, nstips, nsites)` tensor set by `sim_loci`. -/
inductive Seqs where
  | noneV
  | empty1
  | snps (rows : List (List Nat))
  | loci (tensor : List (List (List Nat)))
  deriving DecidableEq

/-- `self.seqs.ndim`.  Callers that reach this read have already ruled
out `None` (whose `9 in self.seqs` membership test raises first), so
the value returned for `noneV` is never consulted. -/
def Seqs.ndim : Seqs → Nat
  | .noneV => 0
  | .empty1 => 1
  | .snps _ => 2
  | .loci _ => 3

/-- `self.seqs.shape[0]` (an empty 1-D array has shape `(0,)`). -/
def Seqs.shape0 : Seqs → Nat
  | .noneV => 0
  | .empty1 => 0
  | .snps rows => rows.length
  | .loci t => t.length

/-- All cells of the stored array, for the `9 in self.seqs`
membership test. -/
def Seqs.cells : Seqs → List Nat
  | .noneV => []
  | .empty1 => []
  | .snps rows => rows.flatten
  | .loci t => (t.map List.flatten).flatten

/-- `self.ancestral_seq`: 1-D after `sim_snps`, 2-D after `sim_loci`. -/
inductive AncSeq where
  | one (v : List Nat)
  | two (v : List (List Nat))
  deriving DecidableEq

/-- One row of the `Model.df` result table.  The genealogy newick
string is abstracted to the identity of the tree it prints, and the
optional `inferred_tree` column is `none` while the column is absent,
`some none` once `self.df["inferred_tree"] = np.nan` has run, and
`some (some t)` when a tree has been entered. -/
structure DfRow where
  locus : Nat
  start : Nat
  stop : Nat
  nbps : Nat
  nsnps : Nat
  tidx : Nat
  genealogy : Nat
  inferredTree : Option (Option Nat) := none
  deriving DecidableEq

/-- The mutable state of a `Model` instance read and written by the
simulation entry points: seeds, the generator pair, recombination-map
configuration, sample bookkeeping (`nstips`, `_reorder`) and the
result holders (`ts_dict`, `df`, `seqs`, `ancestral_seq`). -/
structure MState where
  initTseed : Option Nat
  initMseed : Option Nat
  rng : RngPair
  recombIsMap : Bool
  recombSeqLen : Nat
  nstips : Nat
  reorder : List Nat
  tsDict : List (Nat × Nat)
  df : Option (List DfRow)
  seqs : Seqs
  ancestralSeq : Option AncSeq
  deriving DecidableEq

/-- `Model._reset_random_generators`: reseed `rng_trees`, and make
`rng_muts` the very same generator object as `rng_trees` when
`_init_mseed` is falsy (None or 0), else a separate stream seeded from
`_init_mseed`. -/
def resetRandomGenerators (m : MState) : MState :=
  { m with rng :=
      { trees := ⟨m.initTseed, 0⟩,
        muts := ⟨m.initMseed, 0⟩,
        aliased := pyFalsy m.initMseed } }

/-- A draw from `self.rng_trees` at the model level. -/
def drawTrees (m : MState) : (Option Nat × Nat) × MState :=
  let (v, p) := m.rng.drawT
  (v, { m with rng := p })

/-- A draw from `self.rng_muts` at the model level: advances
`rng_trees` when the two attributes name one object. -/
def drawMuts (m : MState) : (Option Nat × Nat) × MState :=
  let (v, p) := m.rng.drawM
  (v, { m with rng := p })

/-- The fragment of `Model.__init__` the claims exercise: store the
seeds, reset the generators, record the recombination-map flag and the
sample bookkeeping, and initialize the result holders
(`ts_dict = {}`, `df`/`seqs`/`ancestral_seq` = None). -/
def mkModel (tseed mseed : Option Nat) (recombIsMap : Bool)
    (recombSeqLen : Nat) (nstips : Nat) (reorder : List Nat) : MState :=
  resetRandomGenerators
    { initTseed := tseed, initMseed := mseed,
      rng := ⟨⟨tseed, 0⟩, ⟨mseed, 0⟩, pyFalsy mseed⟩,
      recombIsMap := recombIsMap, recombSeqLen := recombSeqLen,
      nstips := nstips, reorder := reorder,
      tsDict := [], df := none, seqs := .noneV, ancestralSeq := none }

/-- The tree sequence returned by `ms.sim_ancestry` for one locus,
abstracted to an identity and its breakpoint list. -/
structure TreeSeqSim where
  tsid : Nat
  breaks : List Nat
  deriving DecidableEq

/-- The first variant of a mutated single-site tree sequence:
`len(variant.site.mutations)` and `len(variant.alleles)`. -/
structure SnpVariant where
  nmut : Nat
  nalleles : Nat
  deriving DecidableEq

/-- The data `sim_snps` reads off one mutated tree sequence: its
identity, `next(mutated_ts.variants())` if any, the genotype column
and the index of the ancestral allele. -/
structure MutSnpRes where
  mtsid : Nat
  firstVariant : Option SnpVariant
  genoCol : List Nat
  ancIdx : Nat
  deriving DecidableEq

/-- One variant record of a mutated multi-site tree sequence: its site
position, ancestral allele index, and per-sample genotype calls. -/
structure LociVariant where
  pos : Nat
  ancIdx : Nat
  genoCol : List Nat
  deriving DecidableEq

/-- The data `sim_loci` reads off one mutated tree sequence: identity,
per-tree SNP counts, and the variant records to scatter. -/
structure MutLociRes where
  mtsid : Nat
  treeSnps : List Nat
  variants : List LociVariant
  deriving DecidableEq

/-- The msprime engine as an oracle: each engine call is a pure
function of the random seed token drawn for it and of what it
mutates.  `simAncestry` serves `sim_trees`/`sim_loci` (one seeded call
per locus); `ancStream` serves the replicate generator of `sim_snps`
(seeded once, then indexed by replicate number);
`rootChoice` serves the `rng_muts.choice` draw of the per-locus root
sequence. -/
structure Engine where
  simAncestry : (Option Nat × Nat) → Nat → TreeSeqSim
  ancStream : (Option Nat × Nat) → Nat → TreeSeqSim
  simMutationsSnp : (Option Nat × Nat) → Nat → MutSnpRes
  simMutationsLoci : (Option Nat × Nat) → Nat → MutLociRes
  rootChoice : (Option Nat × Nat) → Nat → List Nat

/-- The conflicting-arguments guard shared by `sim_trees` and
`sim_loci`: a recombination map already fixes the number of sites, so
a truthy `nsites` besides it is an error, and with a map the length
comes from the map. -/
def resolveNsites (m : MState) (nsites : Nat) : Except Err Nat :=
  if m.recombIsMap then
    if nsites ≠ 0 then
      .error (.ipcoal "Both nsites and recomb_map cannot be used together")
    else .ok m.recombSeqLen
  else .ok nsites

/-- Rows of the per-locus dataframe built by `sim_trees`/`sim_loci`
from the breakpoints: `starts = breaks[:-1]`, `ends = breaks[1:]`, one
genealogy per interval, with `tidx` the tree index and `nsnps`
per-tree (constant 0 for `sim_trees`). -/
def mkBreakRows (locus : Nat) (nsnpsOf : Nat → Nat) (breaks : List Nat) :
    List DfRow :=
  ((breaks.zip breaks.tail).enum).map fun p =>
    { locus := locus, start := p.2.1, stop := p.2.2,
      nbps := p.2.2 - p.2.1, nsnps := nsnpsOf p.1, tidx := p.1,
      genealogy := p.1 }

/-- Write the call's tree sequences into `self.ts_dict` from key `i`
on: `self.ts_dict[lidx] = tree_seq` once per locus, in locus order. -/
def tsDictWriteFrom (d : List (Nat × Nat)) (i : Nat) :
    List Nat → List (Nat × Nat)
  | [] => d
  | t :: ts => tsDictWriteFrom (dictSet d i t) (i + 1) ts

/-- Write the call's tree sequences into `self.ts_dict`: the i-th one
written goes to key i (the locus or SNP index). -/
def tsDictWrite (d : List (Nat × Nat)) (tsids : List Nat) :
    List (Nat × Nat) :=
  tsDictWriteFrom d 0 tsids

/-- Accumulator of the `sim_trees` locus loop. -/
structure SimAcc where
  rng : RngPair
  rows : List DfRow
  tsids : List Nat
  deriving DecidableEq

/-- One iteration of the `sim_trees` locus loop: draw the engine seed
(`self.rng_trees.integers(1e9)` inside
`_get_tree_sequence_generator`), take the tree sequence, record its
breakpoint rows and its identity. -/
def simTreesStep (eng : Engine) (nsites : Nat) (acc : SimAcc)
    (lidx : Nat) : SimAcc :=
  let (sv, rng1) := acc.rng.drawT
  let ts := eng.simAncestry sv nsites
  { rng := rng1,
    rows := acc.rows ++ mkBreakRows lidx (fun _ => 0) ts.breaks,
    tsids := acc.tsids ++ [ts.tsid] }

/-- The `sim_trees` locus loop over `range(nloci)`. -/
def simTreesCore (eng : Engine) (rng0 : RngPair) (nloci nsites : Nat) :
    SimAcc :=
  (List.range nloci).foldl (simTreesStep eng nsites) ⟨rng0, [], []⟩

/-- `Model.sim_trees`: per locus, draw one engine seed and record the
breakpoint rows and the tree sequence; store the concatenated
dataframe, write this call's tree sequences into `ts_dict`, and set
`seqs` to the empty 1-D array.  Unlike `sim_loci` and `sim_snps` it
does NOT call `_reset_random_generators` before returning (although
that helper's docstring says it runs after all three entry points),
and it leaves `ancestral_seq` untouched. -/
def simTrees (eng : Engine) (m : MState) (nloci nsites : Nat) :
    Except Err MState :=
  match resolveNsites m nsites with
  | .error e => .error e
  | .ok nsites =>
    let acc := simTreesCore eng m.rng nloci nsites
    .ok { m with
          rng := acc.rng,
          tsDict := tsDictWrite m.tsDict acc.tsids,
          df := some acc.rows,
          seqs := .empty1 }

/-- Scatter the variant records of one locus into the ancestral row
and the genotype matrix:
`aseqarr[lidx, pos] = index(ancestral_state)` and
`seqarr[lidx, :, pos] = genos[var.index]`. -/
def imputeVariants (aseq0 : List Nat) (base : List (List Nat))
    (vs : List LociVariant) : List Nat × List (List Nat) :=
  vs.foldl
    (fun st v =>
      (st.1.set v.pos v.ancIdx,
       st.2.enum.map fun rp => rp.2.set v.pos (v.genoCol.getD rp.1 0)))
    (aseq0, base)

/-- Accumulator of the `sim_loci` locus loop. -/
structure LociAcc where
  rng : RngPair
  rows : List DfRow
  tsids : List Nat
  seqarr : List (List (List Nat))
  aseqarr : List (List Nat)
  deriving DecidableEq

/-- One iteration of the `sim_loci` locus loop, in source order: draw
the ancestry seed, mutate the tree sequence (a `rng_muts` draw),
record per-tree SNP counts, draw the root sequence
(`rng_muts.choice`, a second `rng_muts` draw), broadcast it over the
samples, then scatter the variants. -/
def simLociStep (eng : Engine) (nstips nsites : Nat) (acc : LociAcc)
    (lidx : Nat) : LociAcc :=
  let (sv, rng1) := acc.rng.drawT
  let ts := eng.simAncestry sv nsites
  let (mv, rng2) := rng1.drawM
  let mres := eng.simMutationsLoci mv ts.tsid
  let rows := mkBreakRows lidx (fun i => mres.treeSnps.getD i 0) ts.breaks
  let (cv, rng3) := rng2.drawM
  let aseq0 := eng.rootChoice cv nsites
  let (aseq, mat) :=
    imputeVariants aseq0 (List.replicate nstips aseq0) mres.variants
  { rng := rng3,
    rows := acc.rows ++ rows,
    tsids := acc.tsids ++ [mres.mtsid],
    seqarr := acc.seqarr ++ [mat],
    aseqarr := acc.aseqarr ++ [aseq] }

/-- The `sim_loci` locus loop over `range(nloci)`. -/
def simLociCore (eng : Engine) (rng0 : RngPair) (nstips nloci nsites : Nat) :
    LociAcc :=
  (List.range nloci).foldl (simLociStep eng nstips nsites) ⟨rng0, [], [], [], []⟩

/-- `Model.sim_loci`: simulate and mutate each locus, store the
concatenated dataframe, the row-reordered genotype tensor
(`seqarr[:, self._reorder]`), the ancestral tensor, write this call's
tree sequences into `ts_dict`, and reset the RNG streams on exit. -/
def simLoci (eng : Engine) (m : MState) (nloci nsites : Nat) :
    Except Err MState :=
  match resolveNsites m nsites with
  | .error e => .error e
  | .ok nsites =>
  let acc := simLociCore eng m.rng m.nstips nloci nsites
  .ok (resetRandomGenerators
    { m with
      rng := acc.rng,
      tsDict := tsDictWrite m.tsDict acc.tsids,
      df := some acc.rows,
      seqs := .loci (acc.seqarr.map fun mat => m.reorder.map fun r => mat.getD r []),
      ancestralSeq := some (.two acc.aseqarr) })

/-- `x if x else default` for the optional integer arguments of
`sim_snps` (`max_mutations`, `max_alleles`). -/
def pyOr (v : Option Nat) (d : Nat) : Nat :=
  if pyFalsy v then d else v.getD d

/-- Loop state of the `sim_snps` while-loop: the generator pair, the
`ts_dict` (written in place as SNPs are accepted), the genotype
columns, ancestral allele indices and newick identities stored so far,
the accepted variants they came from, the accepted-SNP counter
`snpidx` and the replicate counter. -/
structure SnpAcc where
  rng : RngPair
  tsDict : List (Nat × Nat)
  cols : List (List Nat)
  ancs : List Nat
  newicks : List Nat
  accepted : List SnpVariant
  snpidx : Nat
  rep : Nat
  deriving DecidableEq

/-- The inner `while 1` retry loop entered under
`repeat_on_trees=True`: it draws fresh mutation overlays, but the
source contains no break statement, so no iteration can leave the
loop; the return type records that it produces no value, and finite
fuel can only end in the non-termination marker. -/
def repeatOnTreesLoop (eng : Engine) (tsid : Nat) :
    Nat → RngPair → Except Err Empty
  | 0, _ => .error .nonTermination
  | fuel + 1, rng =>
    let (mv, rng1) := rng.drawM
    let _ := eng.simMutationsSnp mv tsid
    repeatOnTreesLoop eng tsid fuel rng1

/-- The `while 1` rejection loop of `sim_snps`, fuelled.  Each
iteration takes the next replicate from the seeded ancestry generator,
overlays mutations (a `rng_muts` draw), and — in the default path —
accepts the realization only if a variant exists, its mutation count
is at least `min_mutations`, and its allele count lies within
`[min_alleles, effective max_alleles]`.  No comparison against
`max_mutations` appears anywhere in the source's accept test. -/
def snpLoop (eng : Engine) (ancSeed : Option Nat × Nat)
    (nsnps minMut minAll effMaxAll : Nat) (repeatOnTrees : Bool) :
    Nat → SnpAcc → Except Err SnpAcc
  | 0, acc =>
    if acc.snpidx = nsnps then .ok acc else .error .nonTermination
  | fuel + 1, acc =>
    if acc.snpidx = nsnps then .ok acc
    else
        let ts := eng.ancStream ancSeed acc.rep
        let rng1 := (acc.rng.drawM).2
        let mres := eng.simMutationsSnp (acc.rng.drawM).1 ts.tsid
        if repeatOnTrees then
          match repeatOnTreesLoop eng ts.tsid fuel rng1 with
          | .error e => .error e
          | .ok x => x.elim
        else
          match mres.firstVariant with
          | none =>
            snpLoop eng ancSeed nsnps minMut minAll effMaxAll repeatOnTrees
              fuel { acc with rng := rng1, rep := acc.rep + 1 }
          | some v =>
            if v.nmut < minMut then
              snpLoop eng ancSeed nsnps minMut minAll effMaxAll repeatOnTrees
                fuel { acc with rng := rng1, rep := acc.rep + 1 }
            else if ¬ (effMaxAll ≥ v.nalleles ∧ v.nalleles ≥ minAll) then
              snpLoop eng ancSeed nsnps minMut minAll effMaxAll repeatOnTrees
                fuel { acc with rng := rng1, rep := acc.rep + 1 }
            else
              snpLoop eng ancSeed nsnps minMut minAll effMaxAll repeatOnTrees
                fuel
                { rng := rng1,
                  tsDict := dictSet acc.tsDict acc.snpidx mres.mtsid,
                  cols := acc.cols ++ [mres.genoCol],
                  ancs := acc.ancs ++ [mres.ancIdx],
                  newicks := acc.newicks ++ [ts.tsid],
                  accepted := acc.accepted ++ [v],
                  snpidx := acc.snpidx + 1,
                  rep := acc.rep + 1 }

/-- `Model.sim_snps`, returning the final state together with the list
of accepted variants (the realizations whose data the loop stored).
Effective `max_mutations`/`max_alleles` default to 100000 when falsy;
the asserts guard `min_mutations ≥ 1` and
`max_alleles > min_alleles`; `max_mutations` is computed here and
never consulted again.  On completion the dataframe, the row-reordered
SNP matrix (`snparr[self._reorder]`) and the ancestral array replace
the stored results and the RNG streams are reset. -/
def simSnpsAux (eng : Engine) (m : MState) (fuel nsnps : Nat)
    (minAlleles : Nat) (maxAlleles : Option Nat) (minMutations : Nat)
    (maxMutations : Option Nat) (repeatOnTrees : Bool) :
    Except Err (MState × List SnpVariant) :=
  let _effMaxMut := pyOr maxMutations 100000
  let effMaxAll := pyOr maxAlleles 100000
  if minMutations = 0 then
    .error (.assertionError "min_mutations must be >=1")
  else if ¬ (effMaxAll > minAlleles) then
    .error (.assertionError "max_alleles must be > min_alleles")
  else
    let sv := (m.rng.drawT).1
    match snpLoop eng sv nsnps minMutations minAlleles effMaxAll
      repeatOnTrees fuel ⟨(m.rng.drawT).2, m.tsDict, [], [], [], [], 0, 0⟩ with
    | .error e => .error e
    | .ok acc =>
    let rows := (List.range nsnps).map fun i =>
      ({ locus := i, start := 0, stop := 1, nbps := 1, nsnps := 1,
         tidx := 0, genealogy := acc.newicks.getD i 0 } : DfRow)
    let snparrRows := (List.range m.nstips).map fun r =>
      acc.cols.map fun c => c.getD r 0
    .ok (resetRandomGenerators
      { m with
        rng := acc.rng,
        tsDict := acc.tsDict,
        df := some rows,
        seqs := .snps (m.reorder.map fun r => snparrRows.getD r []),
        ancestralSeq := some (.one acc.ancs) },
      acc.accepted)

/-- `Model.sim_snps` proper (the stored state). -/
def simSnps (eng : Engine) (m : MState) (fuel nsnps : Nat)
    (minAlleles : Nat) (maxAlleles : Option Nat) (minMutations : Nat)
    (maxMutations : Option Nat) (repeatOnTrees : Bool) :
    Except Err MState :=
  (simSnpsAux eng m fuel nsnps minAlleles maxAlleles minMutations
    maxMutations repeatOnTrees).map Prod.fst

/-- One outcome of `rng.binomial(1, 1.0 - coverage)`: surely 0 when
`1 - coverage ≤ 0` (i.e. `1 ≤ coverage`), surely 1 when
`1 - coverage ≥ 1` (i.e. `coverage ≤ 0`), otherwise genuinely random
and supplied by the mask oracle at the current draw index. -/
def bernMask (orc : Nat → Bool) (k : Nat) (coverage : ℚ) : Bool :=
  if 1 ≤ coverage then false
  else if coverage ≤ 0 then true
  else orc k

/-- Site-coverage masking of one 1-D sample row: each cell is dropped
(`= 9`) independently, one Bernoulli draw per cell. -/
def maskCells (orc : Nat → Bool) (coverage : ℚ) :
    List Nat → Nat → List Nat × Nat
  | [], k => ([], k)
  | x :: xs, k =>
    let b := bernMask orc k coverage
    let (rest, k1) := maskCells orc coverage xs (k + 1)
    ((if b then 9 else x) :: rest, k1)

/-- Site-coverage masking of a 2-D array, row by row. -/
def maskMatrixSite (orc : Nat → Bool) (coverage : ℚ) :
    List (List Nat) → Nat → List (List Nat) × Nat
  | [], k => ([], k)
  | row :: rest, k =>
    let (row1, k1) := maskCells orc coverage row k
    let (rest1, k2) := maskMatrixSite orc coverage rest k1
    (row1 :: rest1, k2)

/-- Locus-coverage masking of a 2-D array: one Bernoulli draw per
sample row (`arr.shape[0]` draws); a masked row becomes all 9. -/
def maskMatrixLocus (orc : Nat → Bool) (coverage : ℚ) :
    List (List Nat) → Nat → List (List Nat) × Nat
  | [], k => ([], k)
  | row :: rest, k =>
    let b := bernMask orc k coverage
    let (rest1, k1) := maskMatrixLocus orc coverage rest (k + 1)
    ((if b then row.map fun _ => 9 else row) :: rest1, k1)

/-- `np.any(arr[:, :cut1] != ancestral[loc, :cut1], axis=1)` for one
sample row: a mutation within the first `cut1` bases. -/
def cutMask1 (cut1 : Nat) (anc row : List Nat) : Bool :=
  ((row.take cut1).zip (anc.take cut1)).any fun p => p.1 ≠ p.2

/-- `np.any(arr[:, -cut2:] != ancestral[loc, -cut2:], axis=1)` for one
sample row: a mutation within the last `cut2` bases (a negative slice
clamps at the start of the row). -/
def cutMask2 (cut2 : Nat) (anc row : List Nat) : Bool :=
  ((row.drop (row.length - cut2)).zip (anc.drop (anc.length - cut2))).any
    fun p => p.1 ≠ p.2

/-- Reading `self.ancestral_seq[loc, :c]` (a 2-D index): on the 2-D
array stored by `sim_loci` this is row `loc`; on the 1-D array stored
by `sim_snps` it is an invalid 2-D index (IndexError); on `None` it is
a TypeError. -/
def ancRow (m : MState) (loc : Nat) : Except Err (List Nat) :=
  match m.ancestralSeq with
  | some (.two a) => .ok (a.getD loc [])
  | some (.one _) => .error .indexError
  | none => .error .typeError

/-- Missing-data masking of one locus of a 3-D tensor in source
order: the coverage mask (site-wise when `coverage_type == "site"`,
else row-wise), then the 5-prime cut, then the 3-prime cut; each cut
is skipped when its length is 0 and reads the ancestral row when
applied. -/
def maskLocus (orc : Nat → Bool) (m : MState) (coverage : ℚ)
    (cutSites : Nat × Nat) (coverageType : String) (loc : Nat)
    (arr : List (List Nat)) (k : Nat) :
    Except Err (List (List Nat) × Nat) := do
  let (arr1, k1) :=
    if coverageType = "site" then maskMatrixSite orc coverage arr k
    else maskMatrixLocus orc coverage arr k
  let arr2 ←
    if cutSites.1 ≠ 0 then do
      let anc ← ancRow m loc
      pure (arr1.map fun row =>
        if cutMask1 cutSites.1 anc row then row.map fun _ => 9 else row)
    else pure arr1
  let arr3 ←
    if cutSites.2 ≠ 0 then do
      let anc ← ancRow m loc
      pure (arr2.map fun row =>
        if cutMask2 cutSites.2 anc row then row.map fun _ => 9 else row)
    else pure arr2
  pure (arr3, k1)

/-- The per-locus masking loop over a 3-D tensor, threading the draw
counter. -/
def maskLoci (orc : Nat → Bool) (m : MState) (coverage : ℚ)
    (cutSites : Nat × Nat) (coverageType : String) :
    List (Nat × List (List Nat)) → Nat →
    Except Err (List (List (List Nat)))
  | [], _ => .ok []
  | (loc, arr) :: rest, k => do
    let (arr1, k1) ← maskLocus orc m coverage cutSites coverageType loc arr k
    let rest1 ← maskLoci orc m coverage cutSites coverageType rest k1
    .ok (arr1 :: rest1)

/-- `Model.apply_missing_mask`.  In source order: the
double-application guard (`9 in self.seqs`; a TypeError on `None`),
the cut-sites guard — which tests `self.seqs.ndim < 2` and therefore
does NOT catch the 2-D SNP matrix —, then the per-locus masking loop.
On 2-D SNP data every iteration takes the site branch of the coverage
mask, and a nonzero cut then applies the 2-D index `arr[:, :cut]` to a
1-D row, raising IndexError on the first iteration (the embedding
reports the exception and does not represent the in-place cell writes
made before it). -/
def applyMissingMask (orc : Nat → Bool) (m : MState) (coverage : ℚ)
    (cutSites : Nat × Nat) (coverageType : String) : Except Err MState :=
  if m.seqs = .noneV then .error .typeError
  else if (m.seqs.cells).contains 9 then
    .error (.ipcoal "Missing data can only be applied to a dataset once.")
  else if m.seqs.ndim < 2 ∧ (cutSites.1 ≠ 0 ∨ cutSites.2 ≠ 0) then
    .error (.ipcoal "cut_sites method can only apply to data simulated with Model.sim_loci().")
  else
    match m.seqs with
    | .noneV => .error .typeError
    | .empty1 => .ok m
    | .snps rows =>
      if rows.length ≠ 0 ∧ (cutSites.1 ≠ 0 ∨ cutSites.2 ≠ 0) then
        .error .indexError
      else
        let (rows1, _) := maskMatrixSite orc coverage rows 0
        .ok { m with seqs := .snps rows1 }
    | .loci tensor => do
      let tensor1 ← maskLoci orc m coverage cutSites coverageType
        tensor.enum 0
      .ok { m with seqs := .loci tensor1 }

/-- `self.df.nbps.max()` over the rows of the result table. -/
def dfNbpsMax (rows : List DfRow) : Nat :=
  rows.foldl (fun a r => max a r.nbps) 0

/-- `Model.infer_gene_trees`, with `TreeInfer.run` as an oracle from
the locus index to an inferred tree (or a raised inference error).  In
source order: the individual-SNPs guard on `df.nbps.max()`; the column
assignment `self.df["inferred_tree"] = np.nan` (a state mutation);
then the no-sequence-data guard — dead after `sim_trees`, which stores
an empty array rather than `None`; finally the per-locus loop over
`range(self.seqs.shape[0])`, skipping invariable loci. -/
def inferGeneTrees (tool : Nat → Except Err Nat) (m : MState) :
    Except Err MState :=
  match m.df with
  | none => .error .attrError
  | some rows =>
    if dfNbpsMax rows = 1 then
      .error (.ipcoal "gene tree inference cannot be performed on individual SNPs")
    else
      let rows1 := rows.map fun r => { r with inferredTree := some none }
      if m.seqs = .noneV then
        .error (.ipcoal "Cannot infer trees because no seq data exists.")
      else do
        let rowsFin ← (List.range m.seqs.shape0).foldlM
          (fun rs lidx =>
            if (rs.filter fun r => r.locus = lidx).foldl
                (fun a r => a + r.nsnps) 0 ≠ 0 then do
              let t ← tool lidx
              pure (rs.map fun r =>
                if r.locus = lidx then { r with inferredTree := some (some t) }
                else r)
            else pure rs)
          rows1
        .ok { m with df := some rowsFin }

/-! Concrete engines, trees and model states used to evaluate the
embedded code at specific inputs. -/

/-- An engine whose every ancestry call returns a single-interval tree
sequence and whose every mutation call lands one bi-allelic,
one-mutation variant. -/
def engTriv : Engine :=
  { simAncestry := fun _ n => ⟨0, [0, n]⟩,
    ancStream := fun _ _ => ⟨0, [0, 1]⟩,
    simMutationsSnp := fun _ t => ⟨t + 200, some ⟨1, 2⟩, [0, 1], 0⟩,
    simMutationsLoci := fun _ t => ⟨t + 100, [1], []⟩,
    rootChoice := fun _ n => List.replicate n 0 }

/-- A model seeded with `seed_trees=42` and no mutation seed. -/
def mC1 : MState := mkModel (some 42) none false 0 2 [0, 1]

/-- A model with no distinct mutation seed (aliased streams). -/
def mC10a : MState := mkModel (some 1) none false 0 2 [0, 1]

/-- A model with a distinct nonzero mutation seed (separate streams). -/
def mC10b : MState := mkModel (some 1) (some 7) false 0 2 [0, 1]

/-- A species tree with three leaves A, B, C. -/
def tree3 : List TNode :=
  [⟨0, 0, 1000, [], "A"⟩, ⟨1, 0, 1000, [], "B"⟩, ⟨2, 0, 1000, [], "C"⟩,
   ⟨3, 1, 1000, [0, 1], "AB"⟩, ⟨4, 2, 1000, [3, 2], "ABC"⟩]

/-- An engine whose first mutation overlay carries a variant with 3
mutations and 2 observed alleles. -/
def engC2 : Engine :=
  { engTriv with simMutationsSnp := fun _ t => ⟨t + 200, some ⟨3, 2⟩, [0, 1], 0⟩ }

/-- A freshly constructed model for the sim-snps run. -/
def mC2 : MState := mkModel (some 1) none false 0 2 [0, 1]

/-- Two leaves at height 0 under a root at height 10. -/
def nodesC3 : List TNode :=
  [⟨0, 0, 1000, [], "A"⟩, ⟨1, 0, 1000, [], "B"⟩, ⟨2, 10, 1000, [0, 1], "AB"⟩]

/-- One interval admixture edge whose end time coincides with the root
height, so a migration-rate event and a split event share time 10. -/
def admixC3 : List AdmixEdge := [⟨0, 1, 4, 10, mkRat 1 100⟩]

/-- Three leaves with two cherry nodes for the two-edge admixture
evaluation. -/
def nodesC4 : List TNode :=
  [⟨0, 0, 1000, [], "A"⟩, ⟨1, 0, 1000, [], "B"⟩, ⟨2, 0, 1000, [], "C"⟩,
   ⟨3, 50, 1000, [0, 1], "AB"⟩, ⟨4, 100, 1000, [3, 2], "ABC"⟩]

/-- Two point-time admixture edges with distinct rates 1/10 and 3/10. -/
def admixC4 : List AdmixEdge :=
  [⟨0, 1, 5, 5, mkRat 1 10⟩, ⟨0, 2, 7, 7, mkRat 3 10⟩]

/-- A freshly constructed model for the accumulation run. -/
def mC6 : MState := mkModel (some 5) none false 0 2 [0, 1]

/-- An engine whose per-locus tree sequences carry identity 7. -/
def engC6 : Engine := { engTriv with simAncestry := fun _ n => ⟨7, [0, n]⟩ }

/-- A model whose `ts_dict` already holds an entry at key 3 from an
earlier call. -/
def stC6w : MState :=
  { mkModel (some 5) none false 0 2 [0, 1] with tsDict := [(3, 99)] }

/-- The state stored by a one-locus `sim_trees` run on `stC6w`. -/
def mC6wRes : MState :=
  match simTrees engTriv stC6w 1 1 with
  | .ok m => m
  | .error _ => stC6w

/-- The state stored by a one-SNP `sim_snps` run on `stC6w`. -/
def mC6wSnpRes : MState :=
  match simSnps engTriv stC6w 4 1 2 none 1 none false with
  | .ok m => m
  | .error _ => stC6w

/-- A model holding a 1-locus, 2-sample, 2-site tensor from a
simulated-loci run, with its ancestral tensor. -/
def mC7 : MState :=
  { mkModel (some 1) none false 0 2 [0, 1] with
    seqs := .loci [[[0, 1], [2, 3]]], ancestralSeq := some (.two [[0, 0]]) }

/-- A single-cell loci tensor for the masking witness. -/
def mC7w : MState :=
  { mkModel (some 1) none false 0 2 [0, 1] with
    seqs := .loci [[[0]]], ancestralSeq := some (.two [[0]]) }

/-- The same model after one application that masked its only cell. -/
def mC7w2 : MState := { mC7w with seqs := .loci [[[9]]] }

/-- A model holding an unlinked-SNP-shaped 2-D matrix from a
simulated-SNPs run. -/
def mC8 : MState :=
  { mkModel (some 1) none false 0 2 [0, 1] with
    seqs := .snps [[0, 1], [1, 0]], ancestralSeq := some (.one [0, 0]) }

/-- A freshly constructed model for the genealogy-only run. -/
def mC9 : MState := mkModel (some 3) none false 0 2 [0, 1]

/-- An engine whose tree sequences span the requested sites in one
interval. -/
def engC9 : Engine := { engTriv with simAncestry := fun _ n => ⟨5, [0, n]⟩ }

/-! Helper lemmas shared by the claim theorems. -/

/-- Dict assignment at a different key preserves an entry. -/
theorem dictSet_mem_of_ne {β : Type} {d : List (Nat × β)} {k kw : Nat}
    {v : β} (vw : β) (hne : k ≠ kw) (hm : (k, v) ∈ d) :
    (k, v) ∈ dictSet d kw vw := by
  induction d with
  | nil => cases hm
  | cons p rest ih =>
    obtain ⟨k0, v0⟩ := p
    rcases List.mem_cons.mp hm with h | h
    · have hk0 : k0 = k := by cases h; rfl
      have hno : ¬ (k0 = kw) := by rw [hk0]; exact hne
      simp only [dictSet, if_neg hno]
      exact List.mem_cons.mpr (Or.inl h)
    · by_cases h0 : k0 = kw
      · simp only [dictSet, if_pos h0]
        exact List.mem_cons.mpr (Or.inr h)
      · simp only [dictSet, if_neg h0]
        exact List.mem_cons.mpr (Or.inr (ih h))

/-- Writing tree sequences at keys `i, i+1, ...` preserves every entry
whose key lies outside the written range. -/
theorem tsDictWriteFrom_mem (ts : List Nat) :
    ∀ (d : List (Nat × Nat)) (i k v : Nat),
      (k, v) ∈ d → (k < i ∨ i + ts.length ≤ k) →
      (k, v) ∈ tsDictWriteFrom d i ts := by
  induction ts with
  | nil => intro d i k v hm _; exact hm
  | cons t ts ih =>
    intro d i k v hm hk
    have hne : k ≠ i := by
      rcases hk with h | h
      · omega
      · simp only [List.length_cons] at h; omega
    refine ih _ (i + 1) k v (dictSet_mem_of_ne t hne hm) ?h
    rcases hk with h | h
    · omega
    · simp only [List.length_cons] at h; omega

/-- The `sim_trees` loop stores one tree sequence per locus. -/
theorem simTreesCore_tsids_length (eng : Engine) (rng : RngPair)
    (nloci nsites : Nat) :
    (simTreesCore eng rng nloci nsites).tsids.length = nloci := by
  have key : ∀ (l : List Nat) (acc : SimAcc),
      ((l.foldl (simTreesStep eng nsites) acc).tsids.length
        = acc.tsids.length + l.length) := by
    intro l
    induction l with
    | nil => intro acc; simp
    | cons x xs ih =>
      intro acc
      rw [List.foldl_cons, ih]
      simp [simTreesStep]
      omega
  simpa [simTreesCore] using key (List.range nloci) ⟨rng, [], []⟩

/-- The `sim_loci` loop stores one tree sequence per locus. -/
theorem simLociCore_tsids_length (eng : Engine) (rng : RngPair)
    (nstips nloci nsites : Nat) :
    (simLociCore eng rng nstips nloci nsites).tsids.length = nloci := by
  have key : ∀ (l : List Nat) (acc : LociAcc),
      ((l.foldl (simLociStep eng nstips nsites) acc).tsids.length
        = acc.tsids.length + l.length) := by
    intro l
    induction l with
    | nil => intro acc; simp
    | cons x xs ih =>
      intro acc
      rw [List.foldl_cons, ih]
      simp [simLociStep]
      omega
  simpa [simLociCore] using key (List.range nloci) ⟨rng, [], [], [], []⟩

/-- The `sim_snps` rejection loop writes `ts_dict` only at keys below
`nsnps`, so entries at keys `≥ nsnps` survive the whole loop. -/
theorem snpLoop_stale (eng : Engine) (ancSeed : Option Nat × Nat)
    (nsnps minMut minAll effMaxAll : Nat) (rot : Bool) :
    ∀ (fuel : Nat) (acc acc' : SnpAcc),
      snpLoop eng ancSeed nsnps minMut minAll effMaxAll rot fuel acc = .ok acc' →
      acc.snpidx ≤ nsnps →
      ∀ k v, (k, v) ∈ acc.tsDict → nsnps ≤ k → (k, v) ∈ acc'.tsDict := by
  intro fuel
  induction fuel with
  | zero =>
    intro acc acc' h hle k v hm hk
    by_cases he : acc.snpidx = nsnps
    · simp only [snpLoop, if_pos he, Except.ok.injEq] at h
      exact h ▸ hm
    · simp [snpLoop, he] at h
  | succ n ih =>
    intro acc acc' h hle k v hm hk
    by_cases he : acc.snpidx = nsnps
    · simp only [snpLoop, if_pos he, Except.ok.injEq] at h
      exact h ▸ hm
    · have hlt : acc.snpidx < nsnps := lt_of_le_of_ne hle he
      simp only [snpLoop, if_neg he] at h
      split at h
      · split at h
        · cases h
        · next x _ => exact x.elim
      · split at h
        · exact ih _ _ h hle k v hm hk
        · split at h
          · exact ih _ _ h hle k v hm hk
          · split at h
            · exact ih _ _ h hle k v hm hk
            · refine ih _ _ h ?hle2 k v (dictSet_mem_of_ne _ ?hne hm) hk
              case hle2 => simp only []; omega
              case hne => omega

/-- `sim_trees` reads none of the stored results: replacing `df`,
`seqs` and `ancestral_seq` beforehand changes nothing but the
carried-over `ancestral_seq`. -/
theorem simTrees_ignores_results (eng : Engine) (st : MState)
    (nloci nsites : Nat) (d0 : Option (List DfRow)) (s0 : Seqs)
    (a0 : Option AncSeq) :
    simTrees eng { st with df := d0, seqs := s0, ancestralSeq := a0 } nloci nsites
      = (simTrees eng st nloci nsites).map
          (fun m => { m with ancestralSeq := a0 }) := by
  obtain ⟨ts, ms, rng, rim, rsl, nst, ro, tsd, df, sq, anc⟩ := st
  unfold simTrees resolveNsites
  by_cases hmap : rim <;> by_cases hn : nsites ≠ 0 <;>
    simp [hmap, hn, Except.map, Except.bind, bind]

/-- `sim_loci` reads none of the stored results and overwrites all of
them. -/
theorem simLoci_ignores_results (eng : Engine) (st : MState)
    (nloci nsites : Nat) (d0 : Option (List DfRow)) (s0 : Seqs)
    (a0 : Option AncSeq) :
    simLoci eng { st with df := d0, seqs := s0, ancestralSeq := a0 } nloci nsites
      = simLoci eng st nloci nsites := rfl

/-- `sim_snps` reads none of the stored results and overwrites all of
them. -/
theorem simSnps_ignores_results (eng : Engine) (st : MState)
    (fuel nsnps minAlleles : Nat) (maxAlleles : Option Nat)
    (minMutations : Nat) (maxMutations : Option Nat) (rot : Bool)
    (d0 : Option (List DfRow)) (s0 : Seqs) (a0 : Option AncSeq) :
    simSnps eng { st with df := d0, seqs := s0, ancestralSeq := a0 }
        fuel nsnps minAlleles maxAlleles minMutations maxMutations rot
      = simSnps eng st fuel nsnps minAlleles maxAlleles minMutations
          maxMutations rot := rfl

/-- What a successful `sim_trees` call stores: the empty sequence
array, the untouched `ancestral_seq`, and a `ts_dict` in which every
entry at a key at or above `nloci` survives. -/
theorem simTrees_ok_effects (eng : Engine) (st : MState)
    (nloci nsites : Nat) (m' : MState)
    (h : simTrees eng st nloci nsites = .ok m') :
    m'.seqs = .empty1 ∧ m'.ancestralSeq = st.ancestralSeq ∧
    ∀ k v, (k, v) ∈ st.tsDict → nloci ≤ k → (k, v) ∈ m'.tsDict := by
  unfold simTrees at h
  split at h
  · cases h
  · rw [Except.ok.injEq] at h
    subst h
    refine ⟨rfl, rfl, ?_⟩
    intro k v hm hk
    show (k, v) ∈ tsDictWrite st.tsDict _
    unfold tsDictWrite
    refine tsDictWriteFrom_mem _ _ _ _ _ hm (Or.inr ?_)
    rw [simTreesCore_tsids_length]
    omega

/-- After a successful `sim_loci` call, every `ts_dict` entry at a key
at or above `nloci` survives. -/
theorem simLoci_ok_effects (eng : Engine) (st : MState)
    (nloci nsites : Nat) (m' : MState)
    (h : simLoci eng st nloci nsites = .ok m') :
    ∀ k v, (k, v) ∈ st.tsDict → nloci ≤ k → (k, v) ∈ m'.tsDict := by
  unfold simLoci at h
  split at h
  · cases h
  · rw [Except.ok.injEq] at h
    subst h
    intro k v hm hk
    show (k, v) ∈ tsDictWrite st.tsDict _
    unfold tsDictWrite
    refine tsDictWriteFrom_mem _ _ _ _ _ hm (Or.inr ?_)
    rw [simLociCore_tsids_length]
    omega

/-- After a successful `sim_snps` call, every `ts_dict` entry at a key
at or above `nsnps` survives. -/
theorem simSnps_ok_effects (eng : Engine) (st : MState)
    (fuel nsnps minAlleles : Nat) (maxAlleles : Option Nat)
    (minMutations : Nat) (maxMutations : Option Nat) (rot : Bool)
    (m' : MState)
    (h : simSnps eng st fuel nsnps minAlleles maxAlleles minMutations
      maxMutations rot = .ok m') :
    ∀ k v, (k, v) ∈ st.tsDict → nsnps ≤ k → (k, v) ∈ m'.tsDict := by
  unfold simSnps simSnpsAux at h
  intro k v hm hk
  dsimp only at h
  split at h
  · simp [Except.map] at h
  · split at h
    · simp [Except.map] at h
    · split at h
      · simp [Except.map] at h
      · next acc heq =>
        simp only [Except.map, Except.ok.injEq] at h
        subst h
        exact snpLoop_stale eng ((st.rng.drawT).1) nsnps minMutations
          minAlleles (pyOr maxAlleles 100000) rot fuel
          ⟨(st.rng.drawT).2, st.tsDict, [], [], [], [], 0, 0⟩ acc heq
          (by simp) k v hm hk

/-! The claim theorems. -/

/-- C1: evaluating the code at the failing input.  On a model seeded
with 42, `sim_trees(nloci=1, nsites=1)` returns with the genealogy
stream advanced by one draw, which differs from the re-seeded stream
state that `_reset_random_generators` would produce — while `sim_loci`
and `sim_snps` on the same model do return with the stream re-seeded.
So the claim that every top-level simulation call leaves both streams
in their initial seeded state fails for `sim_trees`. -/
theorem c1_sim_trees_leaves_rng_advanced :
    (simTrees engTriv mC1 1 1).map (fun m => m.rng.trees) = .ok ⟨some 42, 1⟩ ∧
    (resetRandomGenerators mC1).rng.trees = ⟨some 42, 0⟩ ∧
    (⟨some 42, 1⟩ : Rng) ≠ ⟨some 42, 0⟩ ∧
    (simLoci engTriv mC1 1 1).map (fun m => m.rng.trees) = .ok ⟨some 42, 0⟩ ∧
    (simSnps engTriv mC1 4 1 2 none 1 none false).map (fun m => m.rng.trees)
      = .ok ⟨some 42, 0⟩ :=
  ⟨rfl, rfl, by decide, rfl, rfl⟩

/-- C2: evaluating the code at the failing input.  With
`max_mutations=2`, a realization whose only variant carries 3
mutations (and 2 alleles) is accepted and stored by
`sim_snps(nsnps=1)`: the accept test never consults `max_mutations`,
contradicting the claim (and the docstring of the argument) that such
sites are discarded. -/
theorem c2_accepted_snp_exceeds_max_mutations :
    (simSnpsAux engC2 mC2 4 1 2 none 1 (some 2) false).map (fun p => p.2)
      = .ok [⟨3, 2⟩] ∧ ¬ ((3 : Nat) ≤ 2) :=
  ⟨rfl, by decide⟩

/-- C3 counterexample: on a two-leaf tree with root height 10 and an
interval admixture edge ending at 10, the compiled event list sorts
the migration-rate event at time 10 BEFORE the split at time 10
(because the Python sort key compares the type strings, and
"migration" precedes "split" lexicographically), refuting the claim
that splits and admixture resolve before same-time migration-rate
changes. -/
theorem c3_counterexample_split_after_migration :
    ¬ claimC3 (compiledEvents nodesC3 admixC3) ∧
    (compiledEvents nodesC3 admixC3).map (fun e => (e.time, e.typeStr))
      = [(4, "migration"), (10, "migration"), (10, "split")] :=
  ⟨by decide, rfl⟩

/-- C3 amended: the compiled event list is sorted ascending by the key
(time, type string) with type strings compared lexicographically
("admixture" < "migration" < "split"); consequently at equal times an
Admixture event still resolves before a MigrationRateChange event,
though a MigrationRateChange event resolves before a Split event. -/
theorem c3_amended_sorted_by_time_then_typename (nodes : List TNode)
    (admix : List AdmixEdge) :
    (compiledEvents nodes admix).Sorted eventLE ∧
    (compiledEvents nodes admix).Pairwise
      (fun a b => a.time = b.time → a.isMigration = true →
        b.isAdmixture = true → False) := by
  have hs := List.sorted_insertionSort eventLE
    (buildSplitEvents nodes ++ buildAdmixEvents admix)
  refine ⟨hs, hs.imp ?_⟩
  intro a b hab heq hmig hadx
  rcases hab with hlt | ⟨ht, hstr⟩
  · rw [heq] at hlt; exact lt_irrefl _ hlt
  · have ha : a.typeStr = "migration" := by
      cases a <;> simp_all [Event.isMigration, Event.typeStr]
    have hb : b.typeStr = "admixture" := by
      cases b <;> simp_all [Event.isAdmixture, Event.typeStr]
    rw [ha, hb] at hstr
    exact absurd hstr (by decide)

/-- C4: evaluating the code at the failing input.  With two point-time
admixture edges of rates 1/10 and 3/10, BOTH compiled admixture events
receive proportions `[3/10, 1 - 3/10]`: the event-application loop
reads the leftover Python variable `rate` (the last edge parsed)
instead of the proportions stored in the event itself, so the edge
with rate 1/10 does not get its own `[1/10, 9/10]`. -/
theorem c4_admixture_proportions_use_last_rate :
    (getNewDemography nodesC4 admixC4).map
        (fun cs => cs.filterMap DemCall.admixProps)
      = .ok [(5, [mkRat 3 10, 1 - mkRat 3 10]),
             (7, [mkRat 3 10, 1 - mkRat 3 10])] ∧
    mkRat 3 10 ≠ mkRat 1 10 :=
  ⟨rfl, by decide⟩

/-- C5: evaluating the code at the failing input.  On a three-leaf
tree, an nsamples dict that covers only leaf 0 is accepted by
`_set_samples` without any error and yields a single sample set,
although the claim (and the constructor docstring) require a
configuration error when a mapping omits a leaf. -/
theorem c5_incomplete_sample_dict_accepted :
    setSamples tree3 (.dictInt [(0, 2)]) = .ok [⟨2, "n0"⟩] ∧
    (tree3.filter fun nd => nd.children = []).length = 3 :=
  ⟨rfl, rfl⟩

/-- C6 counterexample: `sim_trees(nloci=2)` stores tree sequences at
keys 0 and 1; a following `sim_snps(nsnps=1)` on the same instance
overwrites only key 0, so afterwards `ts_dict` still holds the entry
`(1, 7)` created by the earlier call — the stored results are not
records of the latest call only. -/
theorem c6_counterexample_stale_ts_dict_entry :
    ((simTrees engC6 mC6 2 1).bind fun m1 =>
        simSnps engC6 m1 4 1 2 none 1 none false).map (fun m => m.tsDict)
      = .ok [(0, 200), (1, 7)] ∧
    ([(0, 200), (1, 7)] : List (Nat × Nat)).map Prod.fst ≠ [0] :=
  ⟨rfl, by decide⟩

/-- C6 amended: each simulation call computes its stored `df` and
`seqs` (and, for `sim_loci`/`sim_snps`, `ancestral_seq`) without
reading any previously stored result — replacing the prior results
wholesale — but `ts_dict` is only updated key by key, so entries at
keys not written by the call persist from earlier calls, and
`sim_trees` leaves the previous `ancestral_seq` in place. -/
theorem c6_amended_replacement_except_ts_dict :
    (∀ (eng : Engine) (st : MState) (nloci nsites : Nat)
        (d0 : Option (List DfRow)) (s0 : Seqs) (a0 : Option AncSeq),
      simTrees eng { st with df := d0, seqs := s0, ancestralSeq := a0 }
          nloci nsites
        = (simTrees eng st nloci nsites).map
            (fun m => { m with ancestralSeq := a0 })) ∧
    (∀ (eng : Engine) (st : MState) (nloci nsites : Nat)
        (d0 : Option (List DfRow)) (s0 : Seqs) (a0 : Option AncSeq),
      simLoci eng { st with df := d0, seqs := s0, ancestralSeq := a0 }
          nloci nsites
        = simLoci eng st nloci nsites) ∧
    (∀ (eng : Engine) (st : MState) (fuel nsnps mia : Nat)
        (maa : Option Nat) (mim : Nat) (mam : Option Nat) (rot : Bool)
        (d0 : Option (List DfRow)) (s0 : Seqs) (a0 : Option AncSeq),
      simSnps eng { st with df := d0, seqs := s0, ancestralSeq := a0 }
          fuel nsnps mia maa mim mam rot
        = simSnps eng st fuel nsnps mia maa mim mam rot) ∧
    (∀ (eng : Engine) (st : MState) (nloci nsites : Nat) (m' : MState),
      simTrees eng st nloci nsites = .ok m' →
      m'.seqs = .empty1 ∧ m'.ancestralSeq = st.ancestralSeq ∧
      ∀ k v, (k, v) ∈ st.tsDict → nloci ≤ k → (k, v) ∈ m'.tsDict) ∧
    (∀ (eng : Engine) (st : MState) (nloci nsites : Nat) (m' : MState),
      simLoci eng st nloci nsites = .ok m' →
      ∀ k v, (k, v) ∈ st.tsDict → nloci ≤ k → (k, v) ∈ m'.tsDict) ∧
    (∀ (eng : Engine) (st : MState) (fuel nsnps mia : Nat)
        (maa : Option Nat) (mim : Nat) (mam : Option Nat) (rot : Bool)
        (m' : MState),
      simSnps eng st fuel nsnps mia maa mim mam rot = .ok m' →
      ∀ k v, (k, v) ∈ st.tsDict → nsnps ≤ k → (k, v) ∈ m'.tsDict) :=
  ⟨simTrees_ignores_results, simLoci_ignores_results,
   simSnps_ignores_results,
   simTrees_ok_effects, simLoci_ok_effects, simSnps_ok_effects⟩

/-- C6 amended, witnessed at concrete inputs: a one-locus `sim_trees`
run and a one-SNP `sim_snps` run on a model whose `ts_dict` holds key
3 both preserve that stale entry, and prior results do not influence
the run. -/
theorem c6_amended_replacement_except_ts_dict_witness :
    (simTrees engTriv
        { stC6w with df := none, seqs := Seqs.noneV, ancestralSeq := none } 1 1
      = (simTrees engTriv stC6w 1 1).map
          (fun m => { m with ancestralSeq := none })) ∧
    mC6wRes.seqs = .empty1 ∧ ((3, 99) ∈ mC6wRes.tsDict) ∧
    ((3, 99) ∈ mC6wSnpRes.tsDict) :=
  ⟨c6_amended_replacement_except_ts_dict.1 engTriv stC6w 1 1 none .noneV none,
   (c6_amended_replacement_except_ts_dict.2.2.2.1 engTriv stC6w 1 1
      mC6wRes rfl).1,
   (c6_amended_replacement_except_ts_dict.2.2.2.1 engTriv stC6w 1 1
      mC6wRes rfl).2.2 3 99 (by decide) (by decide),
   c6_amended_replacement_except_ts_dict.2.2.2.2.2 engTriv stC6w 4 1 2 none 1
      none false mC6wSnpRes rfl 3 99 (by decide) (by decide)⟩

/-- C7 counterexample: with `coverage=1.0` and `cut_sites=(0,0)` the
first application of the missing mask writes no sentinel, and applying
it twice in a row on loci-shaped data succeeds both times (returning
the tensor unchanged), refuting the claim that a second invocation
fails for every coverage value in [0,1]. -/
theorem c7_counterexample_full_coverage_reapply_succeeds :
    (applyMissingMask (fun _ => false) mC7 1 (0, 0) "locus").bind
      (fun m2 => applyMissingMask (fun _ => false) m2 1 (0, 0) "locus")
      = .ok mC7 :=
  rfl

/-- C7 amended: a second invocation of `apply_missing_mask` fails with
the configuration error exactly when the tensor already holds the
missing-data sentinel 9 — in particular whenever the first application
actually masked at least one cell; a first application that masks
nothing leaves no sentinel and a second invocation then succeeds. -/
theorem c7_amended_sentinel_detection (orc orc2 : Nat → Bool)
    (m m2 : MState) (cov cov2 : ℚ) (cut cut2 : Nat × Nat)
    (ct ct2 : String)
    (_h1 : applyMissingMask orc m cov cut ct = .ok m2)
    (h9 : (m2.seqs.cells).contains 9 = true) :
    applyMissingMask orc2 m2 cov2 cut2 ct2
      = .error (.ipcoal "Missing data can only be applied to a dataset once.") := by
  have h9m : 9 ∈ m2.seqs.cells := by simpa using h9
  have hn : ¬ (m2.seqs = .noneV) := by
    intro he; rw [he] at h9; simp [Seqs.cells] at h9
  unfold applyMissingMask
  simp [hn, h9m]

/-- C7 amended, witnessed: a first application with coverage 1/2 that
masks the only cell of a loci tensor leaves the sentinel, and the
second application then fails with the configuration error. -/
theorem c7_amended_sentinel_detection_witness :
    applyMissingMask (fun _ => false) mC7w2 1 (0, 0) "locus"
      = .error (.ipcoal "Missing data can only be applied to a dataset once.") :=
  c7_amended_sentinel_detection (fun _ => true) (fun _ => false) mC7w mC7w2
    (mkRat 1 2) 1 (0, 0) (0, 0) "locus" "locus" rfl rfl

/-- C8: evaluating the code at the failing input.  On
unlinked-SNP-shaped (2-D) data, `apply_missing_mask` with
`cut_sites=(5,0)` raises IndexError from the invalid 2-D row index
inside the masking loop, not the IpcoalError configuration error the
claim requires: the guard tests `ndim < 2` and SNP data has ndim 2. -/
theorem c8_cut_sites_on_snps_raises_index_error :
    applyMissingMask (fun _ => false) mC8 1 (5, 0) "locus"
      = .error .indexError ∧
    (Except.error .indexError : Except Err MState)
      ≠ .error (.ipcoal "cut_sites method can only apply to data simulated with Model.sim_loci().") :=
  ⟨rfl, by decide⟩

/-- C9: evaluating the code at the failing input.  After a
genealogy-only `sim_trees(nloci=1, nsites=100)` run, `seqs` is the
empty array (not None), so the no-sequence-data guard of
`infer_gene_trees` never fires: the call returns successfully — the
inference oracle is never even consulted — and it has mutated the
stored dataframe by adding the `inferred_tree` column, contradicting
the claim that a data-state error is raised at the start before any
state is modified. -/
theorem c9_infer_gene_trees_succeeds_after_sim_trees :
    ((simTrees engC9 mC9 1 100).bind
        (inferGeneTrees fun _ => .error (.ipcoal "TreeInfer must not run"))).map
        (fun m => (m.seqs, m.df.map fun rows => rows.map fun r => r.inferredTree))
      = .ok (.empty1, some [some none]) :=
  rfl

/-- C10: when the model is constructed without a distinct mutation
seed (`seed_mutations` None or 0), after reset the mutation stream is
the very same generator object as the genealogy stream, and a draw
from it advances the genealogy stream by one; with a nonzero
`seed_mutations` the two are separate objects and a mutation draw
leaves the genealogy stream untouched. -/
theorem c10_mutation_stream_aliasing (st : MState) :
    ((st.initMseed = none ∨ st.initMseed = some 0) →
      (resetRandomGenerators st).rng.aliased = true ∧
      ((drawMuts (resetRandomGenerators st)).2).rng.trees.count
        = (resetRandomGenerators st).rng.trees.count + 1) ∧
    (∀ k, st.initMseed = some (k + 1) →
      (resetRandomGenerators st).rng.aliased = false ∧
      ((drawMuts (resetRandomGenerators st)).2).rng.trees
        = (resetRandomGenerators st).rng.trees ∧
      ((drawMuts (resetRandomGenerators st)).2).rng.muts.count
        = (resetRandomGenerators st).rng.muts.count + 1) := by
  constructor
  · rintro (h | h) <;>
      simp [resetRandomGenerators, drawMuts, RngPair.drawM, pyFalsy, Rng.next, h]
  · intro k h
    simp [resetRandomGenerators, drawMuts, RngPair.drawM, pyFalsy, Rng.next, h]

/-- C10, witnessed at two concrete models: seeds (1, None) alias the
streams and a mutation draw advances the genealogy stream; seeds
(1, 7) keep them separate. -/
theorem c10_mutation_stream_aliasing_witness :
    ((resetRandomGenerators mC10a).rng.aliased = true ∧
      ((drawMuts (resetRandomGenerators mC10a)).2).rng.trees.count
        = (resetRandomGenerators mC10a).rng.trees.count + 1) ∧
    ((resetRandomGenerators mC10b).rng.aliased = false ∧
      ((drawMuts (resetRandomGenerators mC10b)).2).rng.trees
        = (resetRandomGenerators mC10b).rng.trees ∧
      ((drawMuts (resetRandomGenerators mC10b)).2).rng.muts.count
        = (resetRandomGenerators mC10b).rng.muts.count + 1) :=
  ⟨(c10_mutation_stream_aliasing mC10a).1 (Or.inl rfl),
   (c10_mutation_stream_aliasing mC10b).2 6 rfl⟩

end Ipcoal
